import Mathlib

/-!
Verification of the SnapFileThing metadata store, authentication service and
rate-limit client identification, shallowly embedded from the Rust sources
(`src/backend/src/services/folder_manager.rs`, `src/backend/src/handlers/auth.rs`,
`src/backend/src/middleware/auth.rs`, `src/backend/src/middleware/rate_limit.rs`).

The two persisted HashMap tables (folder id → FolderMetadata, filename →
FileMetadata) are embedded as lists whose lookup takes the first entry with a
matching key; HashMap insertion is replace-on-key.  The unbounded `while let`
ancestor walk of `move_folder` is embedded with an explicit fuel argument:
a `none` result means the loop has not finished within `fuel` iterations, so
the Rust loop diverges exactly when every fuel yields `none`.
-/

namespace SnapFile

/-- Struct `FolderMetadata` from folder_manager.rs (timestamps as naturals). -/
structure Folder where
  id : String
  name : String
  parent_id : Option String
  created_at : Nat
deriving DecidableEq, Repr

/-- Struct `FileMetadata` from folder_manager.rs. -/
structure FileMeta where
  filename : String
  folder_id : Option String
  uploaded_at : Nat
  size : Nat
deriving DecidableEq, Repr

/-- The folder table: HashMap<String, FolderMetadata> embedded as a list. -/
abbrev FolderTable := List Folder

/-- The file table: HashMap<String, FileMetadata> embedded as a list. -/
abbrev FileTable := List FileMeta

/-- Error type `AppError` from error.rs, restricted to the variants the embedded
operations construct. -/
inductive AppError where
  | NotFound (msg : String)
  | BadRequest (msg : String)
  | Unauthorized (msg : String)
  | Internal (msg : String)
deriving DecidableEq, Repr

/-- Lookup (`HashMap::get`) on the folder table. -/
def lookupFolder (t : FolderTable) (k : String) : Option Folder :=
  t.find? (fun f => f.id == k)

/-- Membership (`HashMap::contains_key`) on the folder table. -/
def containsFolder (t : FolderTable) (k : String) : Bool :=
  (lookupFolder t k).isSome

/-- The keys of the folder table. -/
def folderIds (t : FolderTable) : List String :=
  t.map (fun f => f.id)

/-- The parent link seen from a key: `metadata.get(&k).and_then(|f| f.parent_id)`. -/
def parentOfK (t : FolderTable) (k : String) : Option String :=
  (lookupFolder t k).bind (fun f => f.parent_id)

/-- Insertion (`HashMap::insert`, replace on key) on the folder table. -/
def insertFolder (t : FolderTable) (f : Folder) : FolderTable :=
  f :: t.filter (fun g => g.id != f.id)

/-- The `parent_id` existence check shared by `create_folder` and
`assign_file_to_folder`: a given parent that is absent fails. -/
def parentMissing (t : FolderTable) : Option String → Bool
  | none => false
  | some pid => !(containsFolder t pid)

/-- Operation `FolderManager::create_folder` (folder_manager.rs, lines 94-142); the
freshly generated `Uuid::new_v4` id and the current time are oracle inputs. -/
def create_folder (t : FolderTable) (name : String) (parent_id : Option String)
    (newId : String) (now : Nat) : Except AppError FolderTable :=
  if parentMissing t parent_id then
    .error (.NotFound "Parent folder not found")
  else if t.any (fun f => f.name == name && f.parent_id == parent_id) then
    .error (.BadRequest "Folder already exists in this location")
  else
    .ok (insertFolder t { id := newId, name := name, parent_id := parent_id, created_at := now })

/-- Operation `FolderManager::delete_folder` (folder_manager.rs, lines 145-179). -/
def delete_folder (t : FolderTable) (files : FileTable) (folder_id : String) :
    Except AppError FolderTable :=
  if !(containsFolder t folder_id) then
    .error (.NotFound "Folder not found")
  else if files.any (fun f => f.folder_id == some folder_id) then
    .error (.BadRequest "Cannot delete folder: folder contains files")
  else if t.any (fun f => f.parent_id == some folder_id) then
    .error (.BadRequest "Cannot delete folder: folder contains subfolders")
  else
    .ok (t.filter (fun f => f.id != folder_id))

/-- Insertion (`HashMap::insert`, replace on key) on the file table. -/
def insertFile (files : FileTable) (f : FileMeta) : FileTable :=
  f :: files.filter (fun g => g.filename != f.filename)

/-- Operation `FolderManager::assign_file_to_folder` (folder_manager.rs, lines 281-311). -/
def assign_file_to_folder (t : FolderTable) (files : FileTable)
    (filename : String) (folder_id : Option String) (size now : Nat) :
    Except AppError FileTable :=
  if parentMissing t folder_id then
    .error (.NotFound "Folder not found")
  else
    .ok (insertFile files { filename := filename, folder_id := folder_id,
                            uploaded_at := now, size := size })

/-- Operation `FolderManager::remove_file_metadata` (folder_manager.rs, lines 344-356). -/
def remove_file_metadata (files : FileTable) (filename : String) : FileTable :=
  files.filter (fun f => f.filename != filename)

/-- Operation `FolderManager::get_files_in_folder` (folder_manager.rs, lines 327-341). -/
def get_files_in_folder (files : FileTable) : Option String → List String
  | some fid => (files.filter (fun f => f.folder_id == some fid)).map (fun f => f.filename)
  | none => files.map (fun f => f.filename)

/-- The `while let Some(parent_id) = current_parent` cycle-check loop of
`move_folder` (folder_manager.rs, lines 378-384), with explicit fuel:
`some true` = the moved folder id `tgt` was encountered, `some false` = the
chain ended, `none` = the loop has not finished within `fuel` iterations. -/
def walkHits (t : FolderTable) (tgt : String) : String → Nat → Option Bool
  | _, 0 => none
  | cur, fuel + 1 =>
    if cur = tgt then some true
    else
      match parentOfK t cur with
      | none => some false
      | some p => walkHits t tgt p fuel

/-- The `get_mut` update at the end of `move_folder`: set the moved folder's
`parent_id`, leaving every other field and entry unchanged. -/
def updateParent (t : FolderTable) (fid : String) (np : Option String) : FolderTable :=
  t.map (fun g => if g.id == fid then { g with parent_id := np } else g)

/-- The name-conflict check and final update of `move_folder`
(folder_manager.rs, lines 388-399). -/
def moveFinish (t : FolderTable) (folder_id : String) (new_parent_id : Option String)
    (folder : Folder) : Option (Except AppError FolderTable) :=
  if t.any (fun g => g.name == folder.name && g.parent_id == new_parent_id && g.id != folder_id) then
    some (.error (.BadRequest "Folder already exists in target location"))
  else
    some (.ok (updateParent t folder_id new_parent_id))

/-- Operation `FolderManager::move_folder` (folder_manager.rs, lines 359-408).  The
result is `none` when the unbounded cycle-check loop has not finished within
`fuel` iterations (the Rust loop diverges iff this holds for every fuel). -/
def move_folder (t : FolderTable) (folder_id : String) (new_parent_id : Option String)
    (fuel : Nat) : Option (Except AppError FolderTable) :=
  match lookupFolder t folder_id with
  | none => some (.error (.NotFound "Folder not found"))
  | some folder =>
    match new_parent_id with
    | some pid =>
      if !(containsFolder t pid) then
        some (.error (.NotFound "Target parent folder not found"))
      else
        match walkHits t folder_id pid fuel with
        | none => none
        | some true => some (.error (.BadRequest "Cannot move folder into one of its descendants"))
        | some false => moveFinish t folder_id new_parent_id folder
    | none => moveFinish t folder_id new_parent_id folder

/-! ### The ancestor relation of a folder table -/

/-- Following `parent_id` links `n` times from key `x` (the repeated body of
the Rust ancestor walks). -/
def iterParent (t : FolderTable) : Nat → String → Option String
  | 0, x => some x
  | n + 1, x => (parentOfK t x).bind (iterParent t n)

/-- The forest property claimed by the spec: following `parent_id` links from
any folder never returns to that folder. -/
def Acyclic (t : FolderTable) : Prop :=
  ∀ n x, 0 < n → iterParent t n x ≠ some x

/-- Every in-table parent link points at an existing folder. -/
def ParentsExist (t : FolderTable) : Prop :=
  ∀ f ∈ t, parentMissing t f.parent_id = false

/-- Well-formed folder table: the reachable-state invariant of the store. -/
def WF (t : FolderTable) : Prop := ParentsExist t ∧ Acyclic t

theorem iterParent_add (t : FolderTable) (a b : Nat) (x : String) :
    iterParent t (a + b) x = (iterParent t a x).bind (iterParent t b) := by
  induction a generalizing x with
  | zero => simp [iterParent]
  | succ n ih =>
    have h : n + 1 + b = (n + b) + 1 := by omega
    rw [h]
    show (parentOfK t x).bind (iterParent t (n + b)) = _
    cases hp : parentOfK t x with
    | none => simp [iterParent, hp]
    | some y => simp [iterParent, hp, ih]

theorem parentMissing_eq_false {t : FolderTable} {po : Option String} {p : String}
    (h : parentMissing t po = false) (hp : po = some p) : containsFolder t p = true := by
  subst hp
  simpa [parentMissing] using h

theorem parentOfK_contains {t : FolderTable} (hpe : ParentsExist t) {x p : String}
    (h : parentOfK t x = some p) : containsFolder t p = true := by
  unfold parentOfK at h
  cases hl : lookupFolder t x with
  | none => rw [hl] at h; cases h
  | some f =>
    rw [hl] at h
    have hmem : f ∈ t := List.mem_of_find?_eq_some hl
    exact parentMissing_eq_false (hpe f hmem) h

theorem contains_mem_ids {t : FolderTable} {p : String}
    (h : containsFolder t p = true) : p ∈ folderIds t := by
  unfold containsFolder lookupFolder at h
  rw [Option.isSome_iff_exists] at h
  obtain ⟨f, hf⟩ := h
  have hmem : f ∈ t := List.mem_of_find?_eq_some hf
  have hid : f.id = p := by
    have := List.find?_some hf
    simpa using this
  exact hid ▸ List.mem_map_of_mem (fun g => g.id) hmem

/-! ### The cycle-check walk -/

theorem walkHits_succ (t : FolderTable) (tgt cur : String) (n : Nat) :
    walkHits t tgt cur (n + 1) =
      if cur = tgt then some true
      else
        match parentOfK t cur with
        | none => some false
        | some p => walkHits t tgt p n := rfl

/-- A walk that ended without a hit explores the entire ancestor chain:
no number of parent steps from `cur` reaches `tgt`. -/
theorem walkHits_false_no_reach {t : FolderTable} {tgt : String} :
    ∀ {fuel cur}, walkHits t tgt cur fuel = some false →
      ∀ n, iterParent t n cur ≠ some tgt := by
  intro fuel
  induction fuel with
  | zero => intro cur h; cases h
  | succ m ih =>
    intro cur h n
    rw [walkHits_succ] at h
    by_cases hct : cur = tgt
    · rw [if_pos hct] at h; cases h
    · rw [if_neg hct] at h
      cases hp : parentOfK t cur with
      | none =>
        cases n with
        | zero => simpa [iterParent] using fun hx => hct hx
        | succ k => simp [iterParent, hp]
      | some p =>
        rw [hp] at h
        cases n with
        | zero => simpa [iterParent] using fun hx => hct hx
        | succ k =>
          simp only [iterParent, hp, Option.some_bind]
          exact ih h k

/-- A walk that hit the target exhibits an ancestor path to the target. -/
theorem walkHits_true_reach {t : FolderTable} {tgt : String} :
    ∀ {fuel cur}, walkHits t tgt cur fuel = some true →
      ∃ n, iterParent t n cur = some tgt := by
  intro fuel
  induction fuel with
  | zero => intro cur h; cases h
  | succ m ih =>
    intro cur h
    rw [walkHits_succ] at h
    by_cases hct : cur = tgt
    · exact ⟨0, by simp [iterParent, hct]⟩
    · rw [if_neg hct] at h
      cases hp : parentOfK t cur with
      | none => rw [hp] at h; cases h
      | some p =>
        rw [hp] at h
        obtain ⟨n, hn⟩ := ih h
        exact ⟨n + 1, by simp [iterParent, hp, hn]⟩

/-- Fuel exhaustion means every prefix of the ancestor chain is defined. -/
theorem walkHits_none_iter {t : FolderTable} {tgt : String} :
    ∀ {fuel cur}, walkHits t tgt cur fuel = none →
      ∀ k ≤ fuel, (iterParent t k cur).isSome := by
  intro fuel
  induction fuel with
  | zero =>
    intro cur _ k hk
    interval_cases k
    simp [iterParent]
  | succ m ih =>
    intro cur h k hk
    rw [walkHits_succ] at h
    by_cases hct : cur = tgt
    · rw [if_pos hct] at h; cases h
    · rw [if_neg hct] at h
      cases hp : parentOfK t cur with
      | none => rw [hp] at h; cases h
      | some p =>
        rw [hp] at h
        cases k with
        | zero => simp [iterParent]
        | succ j =>
          simp only [iterParent, hp, Option.some_bind]
          exact ih h j (Nat.le_of_succ_le_succ hk)

/-- Ancestor steps land inside the table when all parent links do. -/
theorem iter_succ_mem_ids {t : FolderTable} (hpe : ParentsExist t) {k : Nat} {cur y : String}
    (h : iterParent t (k + 1) cur = some y) : y ∈ folderIds t := by
  have hsplit : iterParent t (k + 1) cur = (iterParent t k cur).bind (iterParent t 1) := by
    rw [← iterParent_add]
  rw [hsplit] at h
  cases hz : iterParent t k cur with
  | none => rw [hz] at h; cases h
  | some z =>
    rw [hz] at h
    simp only [Option.some_bind] at h
    have h1 : (parentOfK t z).bind (iterParent t 0) = some y := h
    cases hp : parentOfK t z with
    | none => rw [hp] at h1; cases h1
    | some w =>
      rw [hp] at h1
      simp only [Option.some_bind, iterParent] at h1
      obtain rfl : w = y := by simpa using h1
      exact contains_mem_ids (parentOfK_contains hpe hp)

/-- On a well-formed table the cycle-check walk finishes within
`t.length + 1` iterations: the bound the spec demands. -/
theorem walkHits_isSome_of_WF {t : FolderTable} (hpe : ParentsExist t) (hacy : Acyclic t)
    (tgt cur : String) : (walkHits t tgt cur (t.length + 1)).isSome := by
  by_contra hnone
  rw [Option.not_isSome_iff_eq_none] at hnone
  have hdef : ∀ k ≤ t.length + 1, (iterParent t k cur).isSome :=
    walkHits_none_iter hnone
  -- the L+1 successor iterates are keys of the table; pigeonhole forces a repeat
  have hcard : ((folderIds t).toFinset).card < Fintype.card (Fin (t.length + 1)) := by
    have h1 : ((folderIds t).toFinset).card ≤ (folderIds t).length := List.toFinset_card_le _
    have h2 : (folderIds t).length = t.length := List.length_map _ _
    simp only [Fintype.card_fin]
    omega
  have hmaps : ∀ i : Fin (t.length + 1),
      (iterParent t (i.val + 1) cur).getD "" ∈ (folderIds t).toFinset := by
    intro i
    have hi : i.val + 1 ≤ t.length + 1 := i.isLt
    have hs := hdef (i.val + 1) hi
    obtain ⟨y, hy⟩ := Option.isSome_iff_exists.mp hs
    rw [hy]
    simpa using iter_succ_mem_ids hpe hy
  obtain ⟨i, _, j, _, hij, heq⟩ :=
    Finset.exists_ne_map_eq_of_card_lt_of_maps_to hcard (fun i _ => hmaps i)
  -- order the repeated indices
  rcases Nat.lt_or_ge i.val j.val with hlt | hge
  · exact absurd heq (by
      intro heq'
      have hsi := hdef (i.val + 1) (by omega)
      have hsj := hdef (j.val + 1) (by omega)
      obtain ⟨y, hy⟩ := Option.isSome_iff_exists.mp hsi
      obtain ⟨z, hz⟩ := Option.isSome_iff_exists.mp hsj
      have hyz : y = z := by rw [hy, hz] at heq'; simpa using heq'
      subst hyz
      have hsplit : iterParent t (i.val + 1 + (j.val - i.val)) cur
          = (iterParent t (i.val + 1) cur).bind (iterParent t (j.val - i.val)) :=
        iterParent_add t (i.val + 1) (j.val - i.val) cur
      have hidx : i.val + 1 + (j.val - i.val) = j.val + 1 := by omega
      rw [hidx, hz, hy] at hsplit
      simp only [Option.some_bind] at hsplit
      exact hacy (j.val - i.val) y (by omega) hsplit.symm)
  · have hlt' : j.val < i.val := by
      rcases Nat.lt_or_ge j.val i.val with h | h
      · exact h
      · exact absurd (Fin.ext (by omega)) hij
    exact absurd heq.symm (by
      intro heq'
      have hsi := hdef (i.val + 1) (by omega)
      have hsj := hdef (j.val + 1) (by omega)
      obtain ⟨y, hy⟩ := Option.isSome_iff_exists.mp hsj
      obtain ⟨z, hz⟩ := Option.isSome_iff_exists.mp hsi
      have hyz : y = z := by rw [hy, hz] at heq'; simpa using heq'
      subst hyz
      have hsplit : iterParent t (j.val + 1 + (i.val - j.val)) cur
          = (iterParent t (j.val + 1) cur).bind (iterParent t (i.val - j.val)) :=
        iterParent_add t (j.val + 1) (i.val - j.val) cur
      have hidx : j.val + 1 + (i.val - j.val) = i.val + 1 := by omega
      rw [hidx, hz, hy] at hsplit
      simp only [Option.some_bind] at hsplit
      exact hacy (i.val - j.val) y (by omega) hsplit.symm)

/-! ### Lookup after insertion / update -/

theorem find?_filter_ne (t : List Folder) (p q : Folder → Bool)
    (h : ∀ g, p g = true → q g = true) :
    (t.filter q).find? p = t.find? p := by
  induction t with
  | nil => rfl
  | cons g rest ih =>
    by_cases hq : q g = true
    · rw [List.filter_cons_of_pos hq]
      by_cases hp : p g = true
      · rw [List.find?_cons_of_pos _ hp, List.find?_cons_of_pos _ hp]
      · rw [List.find?_cons_of_neg _ (by simpa using hp),
            List.find?_cons_of_neg _ (by simpa using hp)]
        exact ih
    · have hp : ¬ p g = true := fun hpg => hq (h g hpg)
      rw [List.filter_cons_of_neg (by simpa using hq),
          List.find?_cons_of_neg _ (by simpa using hp)]
      exact ih

theorem lookupFolder_insert (t : FolderTable) (f : Folder) (a : String) :
    lookupFolder (insertFolder t f) a = if a = f.id then some f else lookupFolder t a := by
  unfold lookupFolder insertFolder
  by_cases ha : a = f.id
  · rw [if_pos ha, List.find?_cons_of_pos _ (by simp [ha])]
  · rw [if_neg ha, List.find?_cons_of_neg _ (by simp [Ne.symm ha])]
    exact find?_filter_ne t _ _ (by
      intro g hg
      simp only [beq_iff_eq] at hg
      simp [hg, ha])

theorem lookupFolder_updateParent (t : FolderTable) (fid : String) (np : Option String)
    (a : String) :
    lookupFolder (updateParent t fid np) a =
      Option.map (fun g => if g.id == fid then { g with parent_id := np } else g)
        (lookupFolder t a) := by
  unfold lookupFolder updateParent
  rw [List.find?_map]
  have hpred : ((fun f => f.id == a) ∘ fun g : Folder =>
      if g.id == fid then { g with parent_id := np } else g) = (fun f : Folder => f.id == a) := by
    funext g
    by_cases hg : g.id = fid <;> simp [Function.comp, hg]
  rw [hpred]

theorem parentOfK_insert (t : FolderTable) (f : Folder) (a : String) :
    parentOfK (insertFolder t f) a =
      if a = f.id then f.parent_id else parentOfK t a := by
  unfold parentOfK
  rw [lookupFolder_insert]
  by_cases ha : a = f.id <;> simp [ha]

theorem parentOfK_updateParent_self {t : FolderTable} {fid : String} {g : Folder}
    (hl : lookupFolder t fid = some g) (np : Option String) :
    parentOfK (updateParent t fid np) fid = np := by
  have hid : g.id = fid := by simpa using List.find?_some hl
  unfold parentOfK
  rw [lookupFolder_updateParent, hl]
  simp [hid]

theorem parentOfK_updateParent_other (t : FolderTable) (fid : String) (np : Option String)
    {a : String} (ha : a ≠ fid) :
    parentOfK (updateParent t fid np) a = parentOfK t a := by
  unfold parentOfK
  rw [lookupFolder_updateParent]
  cases hl : lookupFolder t a with
  | none => simp
  | some g =>
    have hid : g.id = a := by
      have := List.find?_some hl
      simpa using this
    simp [hid, ha]

theorem containsFolder_updateParent (t : FolderTable) (fid : String) (np : Option String)
    (a : String) : containsFolder (updateParent t fid np) a = containsFolder t a := by
  unfold containsFolder
  rw [lookupFolder_updateParent]
  cases lookupFolder t a <;> simp

theorem containsFolder_insert (t : FolderTable) (f : Folder) (a : String) :
    containsFolder (insertFolder t f) a =
      if a = f.id then true else containsFolder t a := by
  unfold containsFolder
  rw [lookupFolder_insert]
  by_cases ha : a = f.id <;> simp [ha]

/-! ### Acyclicity preservation -/

/-- If two tables give the same parent link away from `f` and the chain from
`x` avoids `f`, the chains agree. -/
theorem iterParent_congr_of_avoid {t t' : FolderTable} {f : String}
    (hagree : ∀ a, a ≠ f → parentOfK t' a = parentOfK t a) :
    ∀ n x, (∀ k, k < n → iterParent t' k x ≠ some f) →
      iterParent t' n x = iterParent t n x := by
  intro n
  induction n with
  | zero => intro x _; rfl
  | succ m ih =>
    intro x havoid
    have hx : x ≠ f := by
      have h0 := havoid 0 (Nat.succ_pos m)
      simpa [iterParent] using h0
    have hp : parentOfK t' x = parentOfK t x := hagree x hx
    show (parentOfK t' x).bind (iterParent t' m) = (parentOfK t x).bind (iterParent t m)
    rw [hp]
    cases hpx : parentOfK t x with
    | none => rfl
    | some y =>
      simp only [Option.some_bind]
      refine ih y ?_
      intro k hk
      have h := havoid (k + 1) (by omega)
      have hstep : iterParent t' (k + 1) x = iterParent t' k y := by
        show (parentOfK t' x).bind (iterParent t' k) = _
        rw [hp, hpx, Option.some_bind]
      rw [hstep] at h
      exact h

/-- When no parent link points at `c`, only the trivial chain reaches `c`. -/
theorem no_iter_to_fresh {t' : FolderTable} {c : String}
    (hnoedge : ∀ a, parentOfK t' a ≠ some c) :
    ∀ m y, iterParent t' m y = some c → m = 0 := by
  intro m
  induction m with
  | zero => intro y _; rfl
  | succ k ih =>
    intro y h
    exfalso
    have h' : (parentOfK t' y).bind (iterParent t' k) = some c := h
    cases hp : parentOfK t' y with
    | none => rw [hp] at h'; cases h'
    | some z =>
      rw [hp, Option.some_bind] at h'
      have hk := ih z h'
      subst hk
      have : z = c := by simpa [iterParent] using h'
      subst this
      exact hnoedge y hp

/-- Inserting a fresh folder whose parent link is valid keeps the table
acyclic. -/
theorem acyclic_insert_fresh {t : FolderTable} {f : Folder}
    (hfresh : containsFolder t f.id = false)
    (hpe : ParentsExist t)
    (hparent : parentMissing t f.parent_id = false)
    (hacy : Acyclic t) : Acyclic (insertFolder t f) := by
  intro n x hn hcycle
  have hagree : ∀ a, a ≠ f.id → parentOfK (insertFolder t f) a = parentOfK t a := by
    intro a ha
    rw [parentOfK_insert, if_neg ha]
  have hnoedge : ∀ a, parentOfK (insertFolder t f) a ≠ some f.id := by
    intro a hedge
    rw [parentOfK_insert] at hedge
    by_cases ha : a = f.id
    · rw [if_pos ha] at hedge
      have := parentMissing_eq_false hparent hedge
      rw [this] at hfresh; cases hfresh
    · rw [if_neg ha] at hedge
      have := parentOfK_contains hpe hedge
      rw [this] at hfresh; cases hfresh
  have hxne : x ≠ f.id := by
    intro hx
    have hhit : iterParent (insertFolder t f) n x = some f.id := by
      rw [← hx]; exact hcycle
    have h0 := no_iter_to_fresh hnoedge n x hhit
    omega
  have havoid : ∀ k, k < n → iterParent (insertFolder t f) k x ≠ some f.id := by
    intro k _ hk
    cases k with
    | zero =>
      exact hxne (by simpa [iterParent] using hk)
    | succ j =>
      have := no_iter_to_fresh hnoedge (j + 1) x hk
      omega
  rw [iterParent_congr_of_avoid hagree n x havoid] at hcycle
  exact hacy n x hn hcycle

/-- Clearing a folder's parent link keeps the table acyclic. -/
theorem acyclic_updateParent_none {t : FolderTable} {fid : String} {g : Folder}
    (hl : lookupFolder t fid = some g) (hacy : Acyclic t) :
    Acyclic (updateParent t fid none) := by
  intro n x hn hcycle
  set t' := updateParent t fid none with ht'
  have hagree : ∀ a, a ≠ fid → parentOfK t' a = parentOfK t a := by
    intro a ha
    exact parentOfK_updateParent_other t fid none ha
  have hfid : parentOfK t' fid = none := parentOfK_updateParent_self hl none
  have havoid : ∀ k, k < n → iterParent t' k x ≠ some fid := by
    intro k hk hhit
    have hsplit : iterParent t' (k + (n - k)) x = (iterParent t' k x).bind (iterParent t' (n - k)) :=
      iterParent_add t' k (n - k) x
    have hidx : k + (n - k) = n := by omega
    rw [hidx, hhit, Option.some_bind] at hsplit
    have hnk : n - k = (n - k - 1) + 1 := by omega
    rw [hcycle] at hsplit
    rw [hnk] at hsplit
    have : (parentOfK t' fid).bind (iterParent t' (n - k - 1)) = some x := hsplit.symm
    rw [hfid] at this
    cases this
  rw [iterParent_congr_of_avoid hagree n x havoid] at hcycle
  exact hacy n x hn hcycle

/-- Re-pointing a folder at a parent from which the ancestor chain never
reaches it keeps the table acyclic. -/
theorem acyclic_updateParent_some {t : FolderTable} {fid p : String} {g : Folder}
    (hl : lookupFolder t fid = some g) (hacy : Acyclic t)
    (hnoreach : ∀ n, iterParent t n p ≠ some fid) :
    Acyclic (updateParent t fid (some p)) := by
  intro n x hn hcycle
  set t' := updateParent t fid (some p) with ht'
  have hagree : ∀ a, a ≠ fid → parentOfK t' a = parentOfK t a := by
    intro a ha
    exact parentOfK_updateParent_other t fid (some p) ha
  have hfid : parentOfK t' fid = some p := parentOfK_updateParent_self hl (some p)
  -- the chain from p in t' never reaches fid
  have hreach : ∀ j, iterParent t' j p ≠ some fid := by
    intro j
    induction j using Nat.strong_induction_on with
    | _ j ihj =>
      intro hj
      by_cases hvis : ∃ i, i < j ∧ iterParent t' i p = some fid
      · obtain ⟨i, hi, hhit⟩ := hvis
        exact ihj i hi hhit
      · push_neg at hvis
        rw [iterParent_congr_of_avoid hagree j p hvis] at hj
        exact hnoreach j hj
  by_cases hvis : ∃ k, k < n ∧ iterParent t' k x = some fid
  · obtain ⟨k, hk, hhit⟩ := hvis
    -- rotate the cycle to start at fid
    have h1 : iterParent t' (k + n) x = (iterParent t' k x).bind (iterParent t' n) :=
      iterParent_add t' k n x
    have h2 : iterParent t' (n + k) x = (iterParent t' n x).bind (iterParent t' k) :=
      iterParent_add t' n k x
    rw [hhit, Option.some_bind] at h1
    rw [hcycle, Option.some_bind, hhit] at h2
    have hrot : iterParent t' n fid = some fid := by
      rw [Nat.add_comm k n] at h1
      rw [h2] at h1
      exact h1.symm
    obtain ⟨m, rfl⟩ : ∃ m, n = m + 1 := ⟨n - 1, by omega⟩
    have hstep : (parentOfK t' fid).bind (iterParent t' m) = some fid := hrot
    rw [hfid, Option.some_bind] at hstep
    exact hreach m hstep
  · push_neg at hvis
    rw [iterParent_congr_of_avoid hagree n x hvis] at hcycle
    exact hacy n x hn hcycle

/-! ### Inversion of successful operations -/

theorem move_folder_ok_inv {t : FolderTable} {fid : String} {np : Option String}
    {fuel : Nat} {t2 : FolderTable}
    (h : move_folder t fid np fuel = some (Except.ok t2)) :
    (∃ folder, lookupFolder t fid = some folder) ∧
    t2 = updateParent t fid np ∧
    (∀ pid, np = some pid → containsFolder t pid = true ∧ walkHits t fid pid fuel = some false) := by
  unfold move_folder at h
  split at h
  · simp at h
  next folder heq =>
    split at h
    next pid =>
      split at h
      · simp at h
      next hcont =>
        split at h
        · simp at h
        · simp at h
        next hwalk =>
          unfold moveFinish at h
          split at h
          · simp at h
          · simp only [Option.some_inj, Except.ok.injEq] at h
            refine ⟨⟨folder, heq⟩, h.symm, ?_⟩
            intro pid' hpid'
            obtain rfl : pid' = pid := by
              simpa using hpid'.symm
            refine ⟨?_, hwalk⟩
            simpa using hcont
    next =>
      unfold moveFinish at h
      split at h
      · simp at h
      · simp only [Option.some_inj, Except.ok.injEq] at h
        exact ⟨⟨folder, heq⟩, h.symm, by intro pid hpid; cases hpid⟩

theorem create_folder_ok_inv {t : FolderTable} {name : String} {parent_id : Option String}
    {newId : String} {now : Nat} {t2 : FolderTable}
    (h : create_folder t name parent_id newId now = Except.ok t2) :
    parentMissing t parent_id = false ∧
    t2 = insertFolder t { id := newId, name := name, parent_id := parent_id, created_at := now } := by
  unfold create_folder at h
  split at h
  · simp at h
  next hmiss =>
    split at h
    · simp at h
    · simp only [Except.ok.injEq] at h
      exact ⟨by simpa using hmiss, h.symm⟩

/-! ### ParentsExist preservation -/

theorem parentMissing_insert {t : FolderTable} {f : Folder} {po : Option String}
    (h : parentMissing t po = false) : parentMissing (insertFolder t f) po = false := by
  cases po with
  | none => rfl
  | some p =>
    have hc : containsFolder t p = true := parentMissing_eq_false h rfl
    simp only [parentMissing, containsFolder_insert]
    by_cases hp : p = f.id <;> simp [hp, hc]

theorem parentMissing_updateParent (t : FolderTable) (fid : String) (np po : Option String) :
    parentMissing (updateParent t fid np) po = parentMissing t po := by
  cases po with
  | none => rfl
  | some p => simp [parentMissing, containsFolder_updateParent]

theorem parentsExist_insert {t : FolderTable} {f : Folder}
    (hpe : ParentsExist t) (hparent : parentMissing t f.parent_id = false) :
    ParentsExist (insertFolder t f) := by
  intro g hg
  rcases List.mem_cons.mp hg with rfl | hg'
  · exact parentMissing_insert hparent
  · exact parentMissing_insert (hpe g (List.mem_of_mem_filter hg'))

theorem parentsExist_updateParent {t : FolderTable} {fid : String} {np : Option String}
    (hpe : ParentsExist t)
    (hnp : ∀ pid, np = some pid → containsFolder t pid = true) :
    ParentsExist (updateParent t fid np) := by
  intro g hg
  rw [parentMissing_updateParent]
  obtain ⟨g0, hg0, hmap⟩ := List.mem_map.mp hg
  by_cases hid : g0.id = fid
  · have : g.parent_id = np := by
      rw [← hmap]; simp [hid]
    rw [this]
    cases np with
    | none => rfl
    | some pid => simp [parentMissing, hnp pid rfl]
  · have : g.parent_id = g0.parent_id := by
      rw [← hmap]; simp [hid]
    rw [this]
    exact hpe g0 hg0

/-! ### The create/move state machine (claim C1) -/

/-- A `create_folder` or `move_folder` call; the fresh id and timestamp of
`create_folder` are oracle inputs recorded in the operation. -/
inductive MOp where
  | create (newId name : String) (parent_id : Option String) (now : Nat)
  | move (folder_id : String) (new_parent_id : Option String)
deriving DecidableEq, Repr

/-- One load-modify-store cycle: a failing call leaves the persisted table
unchanged.  The cycle-check fuel `t.length + 1` is invisible on well-formed
tables (`walkHits_isSome_of_WF`). -/
def mstep (t : FolderTable) : MOp → FolderTable
  | .create newId name pid now =>
    match create_folder t name pid newId now with
    | .ok t2 => t2
    | .error _ => t
  | .move fid np =>
    match move_folder t fid np (t.length + 1) with
    | some (.ok t2) => t2
    | _ => t

def mrun (t : FolderTable) : List MOp → FolderTable
  | [] => t
  | op :: ops => mrun (mstep t op) ops

/-- Freshness of each generated `Uuid::new_v4` id, relative to the table at
the moment of its `create_folder` call. -/
def freshOk (t : FolderTable) : List MOp → Bool
  | [] => true
  | op :: ops =>
    (match op with
     | .create newId _ _ _ => !(containsFolder t newId)
     | .move _ _ => true) && freshOk (mstep t op) ops

theorem WF_nil : WF ([] : FolderTable) := by
  constructor
  · intro f hf; cases hf
  · intro n x hn hcycle
    obtain ⟨m, rfl⟩ : ∃ m, n = m + 1 := ⟨n - 1, by omega⟩
    have : (parentOfK [] x).bind (iterParent [] m) = some x := hcycle
    simp [parentOfK, lookupFolder] at this

theorem mstep_WF {t : FolderTable} {op : MOp}
    (hfresh : (match op with
               | .create newId _ _ _ => !(containsFolder t newId)
               | .move _ _ => true) = true)
    (h : WF t) : WF (mstep t op) := by
  obtain ⟨hpe, hacy⟩ := h
  cases op with
  | create newId name pid now =>
    show WF (match create_folder t name pid newId now with
             | .ok t2 => t2 | .error _ => t)
    cases hc : create_folder t name pid newId now with
    | error e => exact ⟨hpe, hacy⟩
    | ok t2 =>
      obtain ⟨hmiss, rfl⟩ := create_folder_ok_inv hc
      have hfr : containsFolder t newId = false := by
        simpa using hfresh
      exact ⟨parentsExist_insert hpe hmiss,
             acyclic_insert_fresh hfr hpe hmiss hacy⟩
  | move fid np =>
    show WF (match move_folder t fid np (t.length + 1) with
             | some (.ok t2) => t2 | _ => t)
    cases hm : move_folder t fid np (t.length + 1) with
    | none => exact ⟨hpe, hacy⟩
    | some r =>
      cases r with
      | error e => exact ⟨hpe, hacy⟩
      | ok t2 =>
        obtain ⟨⟨folder, hl⟩, rfl, hnp⟩ := move_folder_ok_inv hm
        refine ⟨parentsExist_updateParent hpe (fun pid hpid => (hnp pid hpid).1), ?_⟩
        cases np with
        | none => exact acyclic_updateParent_none hl hacy
        | some pid =>
          obtain ⟨hcont, hwalk⟩ := hnp pid rfl
          exact acyclic_updateParent_some hl hacy (walkHits_false_no_reach hwalk)

theorem mrun_WF {ops : List MOp} :
    ∀ {t : FolderTable}, WF t → freshOk t ops = true → WF (mrun t ops) := by
  induction ops with
  | nil => intro t h _; exact h
  | cons op rest ih =>
    intro t h hf
    rw [freshOk.eq_def, Bool.and_eq_true] at hf
    exact ih (mstep_WF hf.1 h) hf.2

/-- C1: for every sequence of `create_folder` and `move_folder` operations
starting from the empty folder table (each generated folder id being fresh at
its creation, as `Uuid::new_v4` guarantees), the `parent_id` relation over
folders always forms a forest: following `parent_id` links from any folder
never returns to that folder. -/
theorem C1_create_move_forest (ops : List MOp) (hfresh : freshOk [] ops = true) :
    Acyclic (mrun [] ops) :=
  (mrun_WF WF_nil hfresh).2

theorem C1_create_move_forest_witness :
    Acyclic (mrun [] [MOp.create "id1" "Invoices" none 0,
                      MOp.create "id2" "2024" (some "id1") 1,
                      MOp.move "id2" none]) :=
  C1_create_move_forest _ (by decide)

/-! ### The unbounded cycle-check walk (claim C3) -/

/-- A corrupted folder table: `a` and `b` form a parent cycle that does not
pass through `c`. -/
def corruptTable : FolderTable :=
  [{ id := "a", name := "A", parent_id := some "b", created_at := 0 },
   { id := "b", name := "B", parent_id := some "a", created_at := 0 },
   { id := "c", name := "C", parent_id := none, created_at := 0 }]

theorem walkHits_corrupt_none (fuel : Nat) :
    walkHits corruptTable "c" "a" fuel = none ∧
    walkHits corruptTable "c" "b" fuel = none := by
  induction fuel with
  | zero => exact ⟨rfl, rfl⟩
  | succ n ih =>
    constructor
    · rw [walkHits_succ, if_neg (by decide)]
      have hp : parentOfK corruptTable "a" = some "b" := by decide
      rw [hp]
      exact ih.2
    · rw [walkHits_succ, if_neg (by decide)]
      have hp : parentOfK corruptTable "b" = some "a" := by decide
      rw [hp]
      exact ih.1

/-- C3 fails on the code: moving `c` under `a` in `corruptTable` makes the
cycle-check walk of `move_folder` run forever — with any iteration budget
`fuel`, however large, the walk has still not finished (`none`), so its step
count is not bounded by the total folder count (3). -/
theorem C3_cycle_walk_unbounded (fuel : Nat) :
    move_folder corruptTable "c" (some "a") fuel = none := by
  have hstep : move_folder corruptTable "c" (some "a") fuel =
      match walkHits corruptTable "c" "a" fuel with
      | none => none
      | some true =>
        some (.error (.BadRequest "Cannot move folder into one of its descendants"))
      | some false =>
        moveFinish corruptTable "c" (some "a")
          { id := "c", name := "C", parent_id := none, created_at := 0 } := rfl
  rw [hstep, (walkHits_corrupt_none fuel).1]

/-- On well-formed tables, by contrast, the walk does finish within
`t.length + 1` iterations; the failure needs a corrupted table. -/
theorem move_folder_total_of_WF (t : FolderTable) (fid : String) (np : Option String)
    (hwf : WF t) : move_folder t fid np (t.length + 1) ≠ none := by
  unfold move_folder
  split
  · simp
  next folder heq =>
    split
    next pid =>
      split
      · simp
      next hcont =>
        have hsome := walkHits_isSome_of_WF hwf.1 hwf.2 fid pid
        cases hw : walkHits t fid pid (t.length + 1) with
        | none => rw [hw] at hsome; cases hsome
        | some b =>
          cases b with
          | true => simp
          | false =>
            unfold moveFinish
            split
            · simp_all
            · simp_all
            next =>
              split <;> simp
    next =>
      unfold moveFinish
      split <;> simp

/-- Any table whose folders all sit at root is acyclic. -/
theorem acyclic_of_no_parents (t : FolderTable) (h : ∀ f ∈ t, f.parent_id = none) :
    Acyclic t := by
  intro n x hn hcycle
  obtain ⟨m, rfl⟩ : ∃ m, n = m + 1 := ⟨n - 1, by omega⟩
  have hstep : (parentOfK t x).bind (iterParent t m) = some x := hcycle
  cases hp : parentOfK t x with
  | none => rw [hp] at hstep; cases hstep
  | some p =>
    unfold parentOfK at hp
    cases hl : lookupFolder t x with
    | none => rw [hl] at hp; cases hp
    | some g =>
      rw [hl] at hp
      simp only [Option.some_bind] at hp
      have hg : g.parent_id = none := h g (List.mem_of_find?_eq_some hl)
      rw [hg] at hp
      cases hp

theorem move_folder_total_of_WF_witness :
    move_folder [{ id := "r", name := "R", parent_id := none, created_at := 0 }] "r" none 2 ≠
      none := by
  have hwf : WF [{ id := "r", name := "R", parent_id := none, created_at := 0 }] :=
    ⟨fun f hf => by rcases List.mem_singleton.mp hf with rfl; rfl,
     acyclic_of_no_parents _ (by decide)⟩
  exact move_folder_total_of_WF _ "r" none hwf

/-! ### Full characterization of move_folder (claim C4) -/

/-- The cycle condition of the spec: the new parent equals the moved folder
or is one of its descendants, i.e. the ancestor chain from the new parent
reaches the moved folder (in 0 or more steps). -/
def CycleCond (t : FolderTable) (fid : String) : Option String → Prop
  | none => False
  | some pid => ∃ n, iterParent t n pid = some fid

/-- The name-conflict condition of the spec: a different folder with the
same name already sits under the destination parent. -/
def ConflictCond (t : FolderTable) (fid : String) (np : Option String) (nm : String) : Prop :=
  ∃ g ∈ t, g.name = nm ∧ g.parent_id = np ∧ g.id ≠ fid

theorem conflict_any_iff (t : FolderTable) (fid : String) (np : Option String) (nm : String) :
    (t.any fun g => g.name == nm && g.parent_id == np && g.id != fid) = true ↔
      ConflictCond t fid np nm := by
  simp [ConflictCond, List.any_eq_true, Bool.and_eq_true, and_assoc]

theorem moveFinish_conflict_iff (t : FolderTable) (fid : String) (np : Option String)
    (folder : Folder) :
    moveFinish t fid np folder =
        some (.error (.BadRequest "Folder already exists in target location")) ↔
      ConflictCond t fid np folder.name := by
  unfold moveFinish
  by_cases hc : (t.any fun g => g.name == folder.name && g.parent_id == np && g.id != fid) = true
  · rw [if_pos hc]
    exact ⟨fun _ => (conflict_any_iff t fid np folder.name).mp hc, fun _ => rfl⟩
  · rw [if_neg hc]
    constructor
    · intro h; exact absurd h (by simp)
    · intro h; exact absurd ((conflict_any_iff t fid np folder.name).mpr h) hc

theorem moveFinish_ok (t : FolderTable) (fid : String) (np : Option String) (folder : Folder)
    (h : ¬ ConflictCond t fid np folder.name) :
    moveFinish t fid np folder = some (.ok (updateParent t fid np)) := by
  unfold moveFinish
  rw [if_neg (fun hc => h ((conflict_any_iff t fid np folder.name).mp hc))]

theorem moveFinish_ne_cycle (t : FolderTable) (fid : String) (np : Option String)
    (folder : Folder) :
    moveFinish t fid np folder ≠
      some (.error (.BadRequest "Cannot move folder into one of its descendants")) := by
  unfold moveFinish
  split <;> simp

theorem lookupFolder_updateParent_other (t : FolderTable) (fid : String) (np : Option String)
    {a : String} (ha : a ≠ fid) :
    lookupFolder (updateParent t fid np) a = lookupFolder t a := by
  rw [lookupFolder_updateParent]
  cases hl : lookupFolder t a with
  | none => rfl
  | some g =>
    have hid : g.id = a := by simpa using List.find?_some hl
    simp [hid, ha]

theorem lookupFolder_updateParent_self {t : FolderTable} {fid : String} {g : Folder}
    (hl : lookupFolder t fid = some g) (np : Option String) :
    lookupFolder (updateParent t fid np) fid = some { g with parent_id := np } := by
  have hid : g.id = fid := by simpa using List.find?_some hl
  rw [lookupFolder_updateParent, hl]
  simp [hid]

/-- C4: on a well-formed (forest) folder table, `move_folder` fails NotFound
when the moved folder or a given new parent is absent; fails with the cycle
error exactly when the new parent equals the moved folder or is one of its
descendants; fails with the sibling-name conflict error exactly when a
different folder with the same name already has the destination as parent;
and otherwise succeeds, updating only the moved folder's `parent_id`. -/
theorem C4_move_folder_cases (t : FolderTable) (fid : String) (np : Option String)
    (hwf : WF t) :
    (lookupFolder t fid = none →
      move_folder t fid np (t.length + 1) =
        some (.error (.NotFound "Folder not found"))) ∧
    (∀ folder, lookupFolder t fid = some folder →
      ((∃ pid, np = some pid ∧ containsFolder t pid = false) →
        move_folder t fid np (t.length + 1) =
          some (.error (.NotFound "Target parent folder not found"))) ∧
      ((∀ pid, np = some pid → containsFolder t pid = true) →
        (move_folder t fid np (t.length + 1) =
            some (.error (.BadRequest "Cannot move folder into one of its descendants")) ↔
          CycleCond t fid np) ∧
        (¬ CycleCond t fid np →
          (move_folder t fid np (t.length + 1) =
              some (.error (.BadRequest "Folder already exists in target location")) ↔
            ConflictCond t fid np folder.name) ∧
          (¬ ConflictCond t fid np folder.name →
            move_folder t fid np (t.length + 1) = some (.ok (updateParent t fid np)) ∧
            (∀ a, a ≠ fid →
              lookupFolder (updateParent t fid np) a = lookupFolder t a) ∧
            lookupFolder (updateParent t fid np) fid =
              some { folder with parent_id := np })))) := by
  constructor
  · intro hl
    unfold move_folder
    rw [hl]
  · intro folder hl
    cases np with
    | none =>
      have hmf : move_folder t fid none (t.length + 1) = moveFinish t fid none folder := by
        unfold move_folder
        rw [hl]
      refine ⟨?_, ?_⟩
      · rintro ⟨pid, hpid, -⟩
        cases hpid
      · intro _
      -- no cycle is possible towards a root destination
        refine ⟨?_, ?_⟩
        · constructor
          · intro h
            rw [hmf] at h
            exact absurd h (moveFinish_ne_cycle t fid none folder)
          · intro h
            cases h
        · intro _
          refine ⟨?_, ?_⟩
          · rw [hmf]
            exact moveFinish_conflict_iff t fid none folder
          · intro hnc
            exact ⟨by rw [hmf]; exact moveFinish_ok t fid none folder hnc,
                   fun a ha => lookupFolder_updateParent_other t fid none ha,
                   lookupFolder_updateParent_self hl none⟩
    | some pid =>
      have hmf : move_folder t fid (some pid) (t.length + 1) =
          (if !(containsFolder t pid) then
            some (.error (.NotFound "Target parent folder not found"))
          else
            match walkHits t fid pid (t.length + 1) with
            | none => none
            | some true =>
              some (.error (.BadRequest "Cannot move folder into one of its descendants"))
            | some false => moveFinish t fid (some pid) folder) := by
        unfold move_folder
        rw [hl]
      refine ⟨?_, ?_⟩
      · rintro ⟨pid', hpid', hcf⟩
        obtain rfl : pid' = pid := by simpa using hpid'.symm
        rw [hmf, if_pos (by simp [hcf])]
      · intro hnp
        have hcont : containsFolder t pid = true := hnp pid rfl
        have hmf2 : move_folder t fid (some pid) (t.length + 1) =
            match walkHits t fid pid (t.length + 1) with
            | none => none
            | some true =>
              some (.error (.BadRequest "Cannot move folder into one of its descendants"))
            | some false => moveFinish t fid (some pid) folder := by
          rw [hmf, if_neg (by simp [hcont])]
        have hsome := walkHits_isSome_of_WF hwf.1 hwf.2 fid pid
        cases hw : walkHits t fid pid (t.length + 1) with
        | none => rw [hw] at hsome; cases hsome
        | some b =>
          rw [hw] at hmf2
          cases b with
          | true =>
            have hcyc : CycleCond t fid (some pid) := walkHits_true_reach hw
            refine ⟨⟨fun _ => hcyc, fun _ => hmf2⟩, ?_⟩
            intro hnc
            exact absurd hcyc hnc
          | false =>
            have hnr := walkHits_false_no_reach hw
            refine ⟨?_, ?_⟩
            · constructor
              · intro h
                rw [hmf2] at h
                exact absurd h (moveFinish_ne_cycle t fid (some pid) folder)
              · rintro ⟨n, hn⟩
                exact absurd hn (hnr n)
            · intro hnc
              refine ⟨?_, ?_⟩
              · rw [hmf2]
                exact moveFinish_conflict_iff t fid (some pid) folder
              · intro hncf
                exact ⟨by rw [hmf2]; exact moveFinish_ok t fid (some pid) folder hncf,
                       fun a ha => lookupFolder_updateParent_other t fid (some pid) ha,
                       lookupFolder_updateParent_self hl (some pid)⟩

theorem C4_move_folder_cases_witness :
    move_folder [{ id := "r", name := "R", parent_id := none, created_at := 0 }] "r" none 2 =
      some (.ok (updateParent [{ id := "r", name := "R", parent_id := none, created_at := 0 }]
        "r" none)) := by
  have hwf : WF [{ id := "r", name := "R", parent_id := none, created_at := 0 }] :=
    ⟨fun f hf => by rcases List.mem_singleton.mp hf with rfl; rfl,
     acyclic_of_no_parents _ (by decide)⟩
  have h := C4_move_folder_cases
    [{ id := "r", name := "R", parent_id := none, created_at := 0 }] "r" none hwf
  have h2 := h.2 { id := "r", name := "R", parent_id := none, created_at := 0 } (by decide)
  have h3 := (h2.2 (fun pid hpid => by cases hpid)).2 (fun hcyc => by cases hcyc)
  have hncf : ¬ ConflictCond [{ id := "r", name := "R", parent_id := none, created_at := 0 }]
      "r" none ({ id := "r", name := "R", parent_id := none, created_at := 0 } : Folder).name := by
    rintro ⟨g, hg, -, -, hne⟩
    rcases List.mem_singleton.mp hg with rfl
    exact hne rfl
  exact (h3.2 hncf).1

/-! ### delete_folder characterization (claim C6) -/

theorem find?_filter_self_none (t : FolderTable) (fid : String) :
    lookupFolder (t.filter (fun g => g.id != fid)) fid = none := by
  unfold lookupFolder
  rw [List.find?_eq_none]
  intro g hg
  have := List.of_mem_filter hg
  simp only [bne_iff_ne, ne_eq] at this
  simp [this]

theorem lookupFolder_erase_other (t : FolderTable) (fid : String) {a : String} (ha : a ≠ fid) :
    lookupFolder (t.filter (fun g => g.id != fid)) a = lookupFolder t a := by
  unfold lookupFolder
  exact find?_filter_ne t _ _ (by
    intro g hg
    simp only [beq_iff_eq] at hg
    simp [hg, ha])

/-- C6: `delete_folder(f)` fails NotFound when `f` is absent; when `f`
exists it fails with a BadRequest (conflict) error exactly when some file's
`folder_id` or some folder's `parent_id` references `f`; and when `f` exists
unreferenced it succeeds, removing exactly `f` from the folder table. -/
theorem C6_delete_folder_cases (t : FolderTable) (files : FileTable) (fid : String) :
    (containsFolder t fid = false →
      delete_folder t files fid = .error (.NotFound "Folder not found")) ∧
    (containsFolder t fid = true →
      (((∃ f ∈ files, f.folder_id = some fid) ∨ (∃ g ∈ t, g.parent_id = some fid)) ↔
        ∃ m, delete_folder t files fid = .error (.BadRequest m)) ∧
      (¬ ((∃ f ∈ files, f.folder_id = some fid) ∨ (∃ g ∈ t, g.parent_id = some fid)) →
        delete_folder t files fid = .ok (t.filter (fun g => g.id != fid)) ∧
        (∀ a, a ≠ fid →
          lookupFolder (t.filter (fun g => g.id != fid)) a = lookupFolder t a) ∧
        lookupFolder (t.filter (fun g => g.id != fid)) fid = none)) := by
  constructor
  · intro hc
    unfold delete_folder
    rw [if_pos (by simp [hc])]
  · intro hc
    have hstep : delete_folder t files fid =
        (if files.any (fun f => f.folder_id == some fid) then
          .error (.BadRequest "Cannot delete folder: folder contains files")
        else if t.any (fun f => f.parent_id == some fid) then
          .error (.BadRequest "Cannot delete folder: folder contains subfolders")
        else
          .ok (t.filter (fun f => f.id != fid))) := by
      unfold delete_folder
      rw [if_neg (by simp [hc])]
    constructor
    · constructor
      · intro href
        by_cases hfa : (files.any fun f => f.folder_id == some fid) = true
        · exact ⟨_, by rw [hstep, if_pos hfa]⟩
        · have hta : (t.any fun g => g.parent_id == some fid) = true := by
            rcases href with hfile | hfold
            · exact absurd (by simpa [List.any_eq_true] using hfile) hfa
            · simpa [List.any_eq_true] using hfold
          exact ⟨_, by rw [hstep, if_neg hfa, if_pos hta]⟩
      · rintro ⟨m, hm⟩
        rw [hstep] at hm
        by_cases hfa : (files.any fun f => f.folder_id == some fid) = true
        · exact Or.inl (by simpa [List.any_eq_true] using hfa)
        · rw [if_neg hfa] at hm
          by_cases hta : (t.any fun g => g.parent_id == some fid) = true
          · exact Or.inr (by simpa [List.any_eq_true] using hta)
          · rw [if_neg hta] at hm
            cases hm
    · intro href
      push_neg at href
      have hfa : (files.any fun f => f.folder_id == some fid) = false := by
        rw [Bool.eq_false_iff]
        intro h
        obtain ⟨f, hf, hfid⟩ := by simpa [List.any_eq_true] using h
        exact href.1 f hf hfid
      have hta : (t.any fun g => g.parent_id == some fid) = false := by
        rw [Bool.eq_false_iff]
        intro h
        obtain ⟨g, hg, hgid⟩ := by simpa [List.any_eq_true] using h
        exact href.2 g hg hgid
      refine ⟨?_, fun a ha => lookupFolder_erase_other t fid ha,
              find?_filter_self_none t fid⟩
      rw [hstep, if_neg (by simp [hfa]), if_neg (by simp [hta])]

theorem C6_delete_folder_cases_witness :
    delete_folder
      [{ id := "f1", name := "Invoices", parent_id := none, created_at := 0 }] [] "f1" =
      .ok ([{ id := "f1", name := "Invoices", parent_id := none, created_at := 0 }].filter
        (fun g => g.id != "f1")) := by
  have h := C6_delete_folder_cases
    [{ id := "f1", name := "Invoices", parent_id := none, created_at := 0 }] [] "f1"
  exact ((h.2 (by decide)).2 (by
    rintro (⟨f, hf, -⟩ | ⟨g, hg, hgp⟩)
    · cases hf
    · rcases List.mem_singleton.mp hg with rfl
      cases hgp)).1

/-! ### get_files_in_folder at root (claim C9) -/

/-- C9: `get_files_in_folder(None)` returns the filename of every file in
the file table — including files whose `folder_id` is set — not only files
at root. -/
theorem C9_get_files_none (files : FileTable) :
    get_files_in_folder files none = files.map (fun f => f.filename) ∧
    ∀ f ∈ files, f.folder_id ≠ none →
      f.filename ∈ get_files_in_folder files none := by
  refine ⟨rfl, ?_⟩
  intro f hf _
  exact List.mem_map_of_mem (fun g => g.filename) hf

theorem C9_get_files_none_witness :
    "a.png" ∈ get_files_in_folder
      [{ filename := "a.png", folder_id := some "f1", uploaded_at := 0, size := 1024 }] none :=
  (C9_get_files_none _).2
    { filename := "a.png", folder_id := some "f1", uploaded_at := 0, size := 1024 }
    (by decide) (by decide)

/-! ### Referential integrity of the file table (claim C2) -/

/-- An `assign_file_to_folder`, `delete_folder` or `remove_file_metadata`
call, with the assignment timestamp as an oracle input. -/
inductive FOp where
  | assign (filename : String) (folder_id : Option String) (size : Nat) (now : Nat)
  | deleteFolder (folder_id : String)
  | removeMeta (filename : String)
deriving DecidableEq, Repr

/-- One load-modify-store cycle on the pair of tables; failing calls leave
the persisted tables unchanged. -/
def fstep (s : FolderTable × FileTable) : FOp → FolderTable × FileTable
  | .assign fn fid sz now =>
    match assign_file_to_folder s.1 s.2 fn fid sz now with
    | .ok files2 => (s.1, files2)
    | .error _ => s
  | .deleteFolder fid =>
    match delete_folder s.1 s.2 fid with
    | .ok t2 => (t2, s.2)
    | .error _ => s
  | .removeMeta fn => (s.1, remove_file_metadata s.2 fn)

def frun (s : FolderTable × FileTable) : List FOp → FolderTable × FileTable
  | [] => s
  | op :: ops => frun (fstep s op) ops

/-- Referential integrity: every set `folder_id` in the file table resolves
to an existing folder. -/
def FilesValid (t : FolderTable) (files : FileTable) : Prop :=
  ∀ f ∈ files, parentMissing t f.folder_id = false

theorem assign_ok_inv {t : FolderTable} {files : FileTable} {fn : String}
    {fid : Option String} {sz now : Nat} {files2 : FileTable}
    (h : assign_file_to_folder t files fn fid sz now = .ok files2) :
    parentMissing t fid = false ∧
    files2 = insertFile files
      { filename := fn, folder_id := fid, uploaded_at := now, size := sz } := by
  unfold assign_file_to_folder at h
  split at h
  · simp at h
  next hmiss =>
    simp only [Except.ok.injEq] at h
    exact ⟨by simpa using hmiss, h.symm⟩

theorem delete_folder_ok_inv {t : FolderTable} {files : FileTable} {fid : String}
    {t2 : FolderTable} (h : delete_folder t files fid = .ok t2) :
    (files.any fun f => f.folder_id == some fid) = false ∧
    t2 = t.filter (fun f => f.id != fid) := by
  unfold delete_folder at h
  split at h
  · simp at h
  · split at h
    · simp at h
    next hfa =>
      split at h
      · simp at h
      · simp only [Except.ok.injEq] at h
        exact ⟨by simpa using hfa, h.symm⟩

theorem parentMissing_erase {t : FolderTable} {fid : String} {po : Option String}
    (h : parentMissing t po = false) (hne : po ≠ some fid) :
    parentMissing (t.filter (fun g => g.id != fid)) po = false := by
  cases po with
  | none => rfl
  | some p =>
    have hp : p ≠ fid := fun hpe => hne (by rw [hpe])
    have hc : containsFolder t p = true := parentMissing_eq_false h rfl
    simp only [parentMissing, containsFolder, lookupFolder_erase_other t fid hp]
    simp [containsFolder] at hc
    simp [hc]

theorem fstep_FilesValid {s : FolderTable × FileTable} {op : FOp}
    (h : FilesValid s.1 s.2) : FilesValid (fstep s op).1 (fstep s op).2 := by
  cases op with
  | assign fn fid sz now =>
    show FilesValid (match assign_file_to_folder s.1 s.2 fn fid sz now with
                     | .ok files2 => (s.1, files2) | .error _ => s).1
                    (match assign_file_to_folder s.1 s.2 fn fid sz now with
                     | .ok files2 => (s.1, files2) | .error _ => s).2
    cases ha : assign_file_to_folder s.1 s.2 fn fid sz now with
    | error e => exact h
    | ok files2 =>
      obtain ⟨hmiss, rfl⟩ := assign_ok_inv ha
      intro f hf
      rcases List.mem_cons.mp hf with rfl | hf'
      · exact hmiss
      · exact h f (List.mem_of_mem_filter hf')
  | deleteFolder fid =>
    show FilesValid (match delete_folder s.1 s.2 fid with
                     | .ok t2 => (t2, s.2) | .error _ => s).1
                    (match delete_folder s.1 s.2 fid with
                     | .ok t2 => (t2, s.2) | .error _ => s).2
    cases hd : delete_folder s.1 s.2 fid with
    | error e => exact h
    | ok t2 =>
      obtain ⟨hfa, rfl⟩ := delete_folder_ok_inv hd
      intro f hf
      have hne : f.folder_id ≠ some fid := by
        intro hfe
        have : (s.2.any fun g => g.folder_id == some fid) = true :=
          List.any_eq_true.mpr ⟨f, hf, by simp [hfe]⟩
        rw [this] at hfa
        cases hfa
      exact parentMissing_erase (h f hf) hne
  | removeMeta fn =>
    intro f hf
    exact h f (List.mem_of_mem_filter hf)

/-- C2: after any sequence of `assign_file_to_folder`, `delete_folder` and
`remove_file_metadata` operations from a state with referential integrity,
every `FileRecord` whose `folder_id` is set still references an existing
folder. -/
theorem C2_referential_integrity (s : FolderTable × FileTable) (ops : List FOp)
    (h : FilesValid s.1 s.2) :
    FilesValid (frun s ops).1 (frun s ops).2 := by
  induction ops generalizing s with
  | nil => exact h
  | cons op rest ih => exact ih (fstep s op) (fstep_FilesValid h)

theorem C2_referential_integrity_witness :
    FilesValid
      (frun ([{ id := "f1", name := "Invoices", parent_id := none, created_at := 0 }], [])
        [FOp.assign "a.png" (some "f1") 1024 5,
         FOp.deleteFolder "f1",
         FOp.removeMeta "a.png",
         FOp.deleteFolder "f1"]).1
      (frun ([{ id := "f1", name := "Invoices", parent_id := none, created_at := 0 }], [])
        [FOp.assign "a.png" (some "f1") 1024 5,
         FOp.deleteFolder "f1",
         FOp.removeMeta "a.png",
         FOp.deleteFolder "f1"]).2 :=
  C2_referential_integrity _ _ (by intro f hf; cases hf)

/-! ### Authentication service (handlers/auth.rs)

The `jsonwebtoken` crate is an external collaborator; its `decode` (signature
and expiry verification under the service secret) is abstracted as an oracle
`decode : String → Option TokClaims` — `some c` exactly when the presented
token string is well-formed, correctly signed and unexpired with claims `c`.
The blacklist (`Arc<Mutex<HashSet<String>>>` of whole token strings) is a
list of strings. -/

/-- Predicate `str::starts_with` at character level (the header strings involved are
ASCII, where Rust bytes and chars coincide). -/
def strStartsWith (s pre : String) : Bool := pre.data.isPrefixOf s.data

/-- The `&s[n..]` suffix slice at character level. -/
def strDrop (s : String) (n : Nat) : String := String.mk (s.data.drop n)

/-- The `Claims` struct of handlers/auth.rs. -/
structure TokClaims where
  sub : String
  exp : Int
  iat : Int
  jti : String
  token_type : String
deriving DecidableEq, Repr

/-- The token blacklist: HashSet<String> embedded as a list. -/
abbrev Blacklist := List String

/-- Operation `JwtService::validate_token` (auth.rs, lines 90-103): reject blacklisted
token strings, then decode. -/
def validate_token (decode : String → Option TokClaims) (bl : Blacklist) (tok : String) :
    Except AppError TokClaims :=
  if bl.contains tok then .error (.Unauthorized "Token has been revoked")
  else
    match decode tok with
    | some c => .ok c
    | none => .error (.Unauthorized "Invalid token")

/-- Operation `JwtService::blacklist_token` (auth.rs, lines 105-113). -/
def blacklist_token (bl : Blacklist) (tok : String) : Blacklist :=
  tok :: bl

/-- The constant body of every logout response. -/
def logoutMessage : String := "Logged out successfully"

/-- The `logout` handler (auth.rs, lines 177-214): result blacklist paired
with the response message; every branch answers the same success message. -/
def logout (decode : String → Option TokClaims) (bl : Blacklist)
    (auth_header : Option String) : Blacklist × String :=
  match auth_header with
  | some s =>
    if strStartsWith s "Bearer " then
      match validate_token decode bl (strDrop s 7) with
      | .ok _ => (blacklist_token bl (strDrop s 7), logoutMessage)
      | .error _ => (bl, logoutMessage)
    else (bl, logoutMessage)
  | none => (bl, logoutMessage)

/-- Response struct `TokenVerifyResponse` from models.rs. -/
structure TokenVerifyResponse where
  valid : Bool
  username : Option String
  expires_at : Option Int
deriving DecidableEq, Repr

/-- The `verify_token` handler (auth.rs, lines 266-296). -/
def verify_token (decode : String → Option TokClaims) (bl : Blacklist)
    (auth_header : Option String) : TokenVerifyResponse :=
  match auth_header with
  | some s =>
    if strStartsWith s "Bearer " then
      match validate_token decode bl (strDrop s 7) with
      | .ok c =>
        if c.token_type = "access" then
          { valid := true, username := some c.sub, expires_at := some c.exp }
        else { valid := false, username := none, expires_at := none }
      | .error _ => { valid := false, username := none, expires_at := none }
    else { valid := false, username := none, expires_at := none }
  | none => { valid := false, username := none, expires_at := none }

/-- The `refresh_token` handler (auth.rs, lines 227-254): validate the
refresh token, check its type tag, blacklist it, issue a fresh pair (the new
token strings are oracle inputs). -/
def refresh_flow (decode : String → Option TokClaims) (bl : Blacklist)
    (tok newAccess newRefresh : String) : Blacklist × Except AppError (String × String) :=
  match validate_token decode bl tok with
  | .error e => (bl, .error e)
  | .ok c =>
    if c.token_type ≠ "refresh" then (bl, .error (.Unauthorized "Invalid token type"))
    else (blacklist_token bl tok, .ok (newAccess, newRefresh))

/-- Any blacklist-affecting request: an explicit revocation (the success path
of logout on a validated token), a logout with an arbitrary header, or a
refresh-rotation attempt. -/
inductive AuthOp where
  | revoke (tok : String)
  | logoutOp (header : Option String)
  | refreshOp (tok newAccess newRefresh : String)
deriving DecidableEq, Repr

def authStep (decode : String → Option TokClaims) (bl : Blacklist) : AuthOp → Blacklist
  | .revoke tok => blacklist_token bl tok
  | .logoutOp h => (logout decode bl h).1
  | .refreshOp tok na nr => (refresh_flow decode bl tok na nr).1

def authRun (decode : String → Option TokClaims) (bl : Blacklist) : List AuthOp → Blacklist
  | [] => bl
  | op :: ops => authRun decode (authStep decode bl op) ops

theorem authStep_mono (decode : String → Option TokClaims) (bl : Blacklist) (op : AuthOp)
    {t : String} (h : t ∈ bl) : t ∈ authStep decode bl op := by
  cases op with
  | revoke tok => exact List.mem_cons_of_mem tok h
  | logoutOp hd =>
    show t ∈ (logout decode bl hd).1
    cases hd with
    | none => exact h
    | some s =>
      have heq : logout decode bl (some s) =
          if strStartsWith s "Bearer " then
            match validate_token decode bl (strDrop s 7) with
            | .ok _ => (blacklist_token bl (strDrop s 7), logoutMessage)
            | .error _ => (bl, logoutMessage)
          else (bl, logoutMessage) := rfl
      rw [heq]
      by_cases hb : strStartsWith s "Bearer " = true
      · rw [if_pos hb]
        cases validate_token decode bl (strDrop s 7) with
        | ok c => exact List.mem_cons_of_mem _ h
        | error e => exact h
      · rw [if_neg hb]
        exact h
  | refreshOp tok na nr =>
    show t ∈ (refresh_flow decode bl tok na nr).1
    cases hv : validate_token decode bl tok with
    | error e =>
      have heq : refresh_flow decode bl tok na nr = (bl, .error e) := by
        unfold refresh_flow; rw [hv]
      rw [heq]
      exact h
    | ok c =>
      have heq : refresh_flow decode bl tok na nr =
          if c.token_type ≠ "refresh" then (bl, .error (.Unauthorized "Invalid token type"))
          else (blacklist_token bl tok, .ok (na, nr)) := by
        unfold refresh_flow; rw [hv]
      rw [heq]
      by_cases ht : c.token_type ≠ "refresh"
      · rw [if_pos ht]; exact h
      · rw [if_neg ht]; exact List.mem_cons_of_mem _ h

theorem authRun_mono (decode : String → Option TokClaims) (ops : List AuthOp) :
    ∀ {bl : Blacklist} {t : String}, t ∈ bl → t ∈ authRun decode bl ops := by
  induction ops with
  | nil => intro bl t h; exact h
  | cons op rest ih => intro bl t h; exact ih (authStep_mono decode bl op h)

theorem validate_mem_error (decode : String → Option TokClaims) {bl : Blacklist} {t : String}
    (h : t ∈ bl) :
    validate_token decode bl t = .error (.Unauthorized "Token has been revoked") := by
  unfold validate_token
  rw [if_pos (List.elem_eq_true_of_mem h)]

theorem refresh_flow_ok_inv {decode : String → Option TokClaims} {bl : Blacklist}
    {tok na nr : String} {p : String × String}
    (h : (refresh_flow decode bl tok na nr).2 = .ok p) :
    (refresh_flow decode bl tok na nr).1 = blacklist_token bl tok := by
  cases hv : validate_token decode bl tok with
  | error e =>
    have heq : refresh_flow decode bl tok na nr = (bl, .error e) := by
      unfold refresh_flow; rw [hv]
    rw [heq] at h
    cases h
  | ok c =>
    have heq : refresh_flow decode bl tok na nr =
        if c.token_type ≠ "refresh" then (bl, .error (.Unauthorized "Invalid token type"))
        else (blacklist_token bl tok, .ok (na, nr)) := by
      unfold refresh_flow; rw [hv]
    by_cases ht : c.token_type ≠ "refresh"
    · rw [heq, if_pos ht] at h
      cases h
    · rw [heq, if_neg ht]

/-- C5: once a token string has been revoked (blacklisted), every subsequent
`validate_token` on it fails Unauthorized, whatever further logout, revoke or
refresh operations run; in particular after a successful refresh rotation
the old refresh token never validates again. -/
theorem C5_revoked_forever (decode : String → Option TokClaims) (bl : Blacklist)
    (t : String) (ops : List AuthOp) :
    (validate_token decode (authRun decode (blacklist_token bl t) ops) t =
      .error (.Unauthorized "Token has been revoked")) ∧
    (∀ na nr p, (refresh_flow decode bl t na nr).2 = .ok p →
      validate_token decode (authRun decode (refresh_flow decode bl t na nr).1 ops) t =
        .error (.Unauthorized "Token has been revoked")) := by
  constructor
  · exact validate_mem_error decode
      (authRun_mono decode ops (List.mem_cons_self t bl))
  · intro na nr p hok
    rw [refresh_flow_ok_inv hok]
    exact validate_mem_error decode
      (authRun_mono decode ops (List.mem_cons_self t bl))

theorem C5_revoked_forever_witness :
    validate_token
      (fun s => if s = "rt" then
        some { sub := "admin", exp := 100, iat := 0, jti := "j1", token_type := "refresh" }
        else none)
      (authRun
        (fun s => if s = "rt" then
          some { sub := "admin", exp := 100, iat := 0, jti := "j1", token_type := "refresh" }
          else none)
        (refresh_flow
          (fun s => if s = "rt" then
            some { sub := "admin", exp := 100, iat := 0, jti := "j1", token_type := "refresh" }
            else none)
          [] "rt" "newAccess" "newRefresh").1
        [AuthOp.logoutOp (some "Bearer rt"), AuthOp.revoke "other"])
      "rt" = .error (.Unauthorized "Token has been revoked") :=
  (C5_revoked_forever
    (fun s => if s = "rt" then
      some { sub := "admin", exp := 100, iat := 0, jti := "j1", token_type := "refresh" }
      else none)
    [] "rt" [AuthOp.logoutOp (some "Bearer rt"), AuthOp.revoke "other"]).2
    "newAccess" "newRefresh" ("newAccess", "newRefresh") rfl

/-- The non-valid presentations of claim C7: absent header, no Bearer scheme,
revoked token string, malformed or expired token (decode fails), or a token
whose type tag is not `access`. -/
def NonValidPresentation (decode : String → Option TokClaims) (bl : Blacklist) :
    Option String → Prop
  | none => True
  | some s =>
    ¬ strStartsWith s "Bearer " = true ∨
    (strDrop s 7) ∈ bl ∨
    decode (strDrop s 7) = none ∨
    (∃ c, decode (strDrop s 7) = some c ∧ c.token_type ≠ "access")

theorem validate_ok_inv {decode : String → Option TokClaims} {bl : Blacklist}
    {tok : String} {c : TokClaims}
    (h : validate_token decode bl tok = .ok c) :
    bl.contains tok = false ∧ decode tok = some c := by
  unfold validate_token at h
  by_cases hc : bl.contains tok = true
  · rw [if_pos hc] at h; cases h
  · rw [if_neg hc] at h
    cases hd : decode tok with
    | none => rw [hd] at h; cases h
    | some c' =>
      rw [hd] at h
      simp only [Except.ok.injEq] at h
      exact ⟨by simpa using hc, by rw [h]⟩

/-- C7: the `logout` handler reports the same successful outer result for
every presented header, and the `verify_token` handler returns the same
`valid = false` response with no detail for every non-valid presentation —
the observable outcome does not distinguish among the non-valid cases. -/
theorem C7_no_oracle_leak (decode : String → Option TokClaims) (bl : Blacklist) :
    (∀ h, (logout decode bl h).2 = logoutMessage) ∧
    (∀ h, NonValidPresentation decode bl h →
      verify_token decode bl h =
        { valid := false, username := none, expires_at := none }) := by
  constructor
  · intro h
    cases h with
    | none => rfl
    | some s =>
      have heq : logout decode bl (some s) =
          if strStartsWith s "Bearer " then
            match validate_token decode bl (strDrop s 7) with
            | .ok _ => (blacklist_token bl (strDrop s 7), logoutMessage)
            | .error _ => (bl, logoutMessage)
          else (bl, logoutMessage) := rfl
      rw [heq]
      by_cases hb : strStartsWith s "Bearer " = true
      · rw [if_pos hb]
        cases validate_token decode bl (strDrop s 7) <;> rfl
      · rw [if_neg hb]
  · intro h hnv
    cases h with
    | none => rfl
    | some s =>
      have heq : verify_token decode bl (some s) =
          if strStartsWith s "Bearer " then
            match validate_token decode bl (strDrop s 7) with
            | .ok c =>
              if c.token_type = "access" then
                { valid := true, username := some c.sub, expires_at := some c.exp }
              else { valid := false, username := none, expires_at := none }
            | .error _ => { valid := false, username := none, expires_at := none }
          else { valid := false, username := none, expires_at := none } := rfl
      rw [heq]
      by_cases hb : strStartsWith s "Bearer " = true
      · rw [if_pos hb]
        cases hv : validate_token decode bl (strDrop s 7) with
        | error e => rfl
        | ok c =>
          obtain ⟨hnb, hdec⟩ := validate_ok_inv hv
          have hna : ¬ c.token_type = "access" := by
            rcases hnv with hnv | hnv | hnv | hnv
            · exact absurd hb hnv
            · have hcont : List.contains bl (strDrop s 7) = true :=
                List.elem_eq_true_of_mem hnv
              rw [hcont] at hnb
              cases hnb
            · rw [hnv] at hdec; cases hdec
            · obtain ⟨c', hc', hty⟩ := hnv
              rw [hdec] at hc'
              obtain rfl : c = c' := by simpa using hc'
              exact hty
          simp [hna]
      · rw [if_neg hb]

theorem C7_no_oracle_leak_witness :
    (logout (fun _ => none) [] none).2 = logoutMessage ∧
    verify_token (fun _ => none) [] none =
      { valid := false, username := none, expires_at := none } :=
  ⟨(C7_no_oracle_leak (fun _ => none) []).1 none,
   (C7_no_oracle_leak (fun _ => none) []).2 none trivial⟩

/-! ### Request-admission auth middleware (middleware/auth.rs)

Base64+UTF-8 decoding and `splitn(2, ':')` of the Basic scheme are
abstracted as an oracle `basic_decode : String → Option (String × String)`. -/

/-- Config (`AuthConfig`) fields the middleware consults. -/
structure AuthCfg where
  mode : String
  disabled_routes : List String
  admin_username : String
  admin_password : String
deriving DecidableEq, Repr

/-- The backward-compatibility mode mapping (auth.rs middleware, lines 70-74). -/
def auth_mode_of (mode : String) : String :=
  if mode = "public" then "disabled"
  else if mode = "local" then "protected"
  else mode

/-- The disabled-routes check (middleware/auth.rs, lines 86-96). -/
def route_auth_disabled (routes : List String) (path : String) : Bool :=
  routes.any (fun route =>
    route == path ||
    (route.endsWith "/*" &&
      (path.startsWith (route.dropRight 2) || path == route.dropRight 2)))

/-- The always-accessible static-file patterns (middleware/auth.rs, lines 99-117). -/
def is_static_file_path (path : String) : Bool :=
  path.endsWith ".ico" || path.endsWith ".png" || path.endsWith ".jpg" ||
  path.endsWith ".jpeg" || path.endsWith ".gif" || path.endsWith ".svg" ||
  path.endsWith ".webp" || path.endsWith ".css" || path.endsWith ".js" ||
  path.endsWith ".woff" || path.endsWith ".woff2" || path.endsWith ".ttf" ||
  path.endsWith ".eot" || path.endsWith ".txt" || path.endsWith ".json" ||
  path.endsWith ".webmanifest" || path.startsWith "/assets/" ||
  path.startsWith "/web/assets/" || path.startsWith "/uploads/"

/-- The observable admission decision of `AuthMiddlewareService::call`. -/
inductive AuthDecision where
  | pass_disabled
  | pass_route
  | pass_bearer (c : TokClaims)
  | pass_basic
  | reject
deriving DecidableEq, Repr

/-- Operation `AuthMiddlewareService::call` (middleware/auth.rs, lines 66-201). -/
def auth_middleware_call (cfg : AuthCfg) (decode : String → Option TokClaims)
    (basic_decode : String → Option (String × String)) (bl : Blacklist)
    (path : String) (auth_header : Option String) : AuthDecision :=
  if auth_mode_of cfg.mode = "disabled" then .pass_disabled
  else if route_auth_disabled cfg.disabled_routes path || is_static_file_path path then
    .pass_route
  else
    match auth_header with
    | some s =>
      if strStartsWith s "Bearer " then
        match validate_token decode bl (strDrop s 7) with
        | .ok c => if c.token_type = "access" then .pass_bearer c else .reject
        | .error _ => .reject
      else if strStartsWith s "Basic " then
        match basic_decode (strDrop s 6) with
        | some (u, p) =>
          if u = cfg.admin_username ∧ p = cfg.admin_password then .pass_basic
          else .reject
        | none => .reject
      else .reject
    | none => .reject

/-- C10: `verify_token` reports `valid = true` only for tokens whose type
tag is `access` — an unexpired, unrevoked, correctly signed refresh token
gets `valid = false` — and the auth middleware never admits a Bearer
credential whose validated type tag is not `access`. -/
theorem C10_access_tokens_only (decode : String → Option TokClaims) (bl : Blacklist) :
    (∀ s c, strStartsWith s "Bearer " = true →
      decode (strDrop s 7) = some c → c.token_type = "refresh" →
      bl.contains (strDrop s 7) = false →
      verify_token decode bl (some s) =
        { valid := false, username := none, expires_at := none }) ∧
    (∀ h, (verify_token decode bl h).valid = true →
      ∃ s c, h = some s ∧ validate_token decode bl (strDrop s 7) = .ok c ∧
        c.token_type = "access") ∧
    (∀ cfg basic_decode path h c,
      auth_middleware_call cfg decode basic_decode bl path h = .pass_bearer c →
      c.token_type = "access") := by
  refine ⟨?_, ?_, ?_⟩
  · intro s c hb hdec hty hnb
    have hv : validate_token decode bl (strDrop s 7) = .ok c := by
      unfold validate_token
      rw [if_neg (by rw [hnb]; simp), hdec]
    have heq : verify_token decode bl (some s) =
        if strStartsWith s "Bearer " then
          match validate_token decode bl (strDrop s 7) with
          | .ok c =>
            if c.token_type = "access" then
              { valid := true, username := some c.sub, expires_at := some c.exp }
            else { valid := false, username := none, expires_at := none }
          | .error _ => { valid := false, username := none, expires_at := none }
        else { valid := false, username := none, expires_at := none } := rfl
    rw [heq, if_pos hb, hv]
    have : ¬ c.token_type = "access" := by rw [hty]; decide
    simp [this]
  · intro h hvalid
    cases h with
    | none => cases hvalid
    | some s =>
      have heq : verify_token decode bl (some s) =
          if strStartsWith s "Bearer " then
            match validate_token decode bl (strDrop s 7) with
            | .ok c =>
              if c.token_type = "access" then
                { valid := true, username := some c.sub, expires_at := some c.exp }
              else { valid := false, username := none, expires_at := none }
            | .error _ => { valid := false, username := none, expires_at := none }
          else { valid := false, username := none, expires_at := none } := rfl
      rw [heq] at hvalid
      by_cases hb : strStartsWith s "Bearer " = true
      · rw [if_pos hb] at hvalid
        cases hv : validate_token decode bl (strDrop s 7) with
        | error e => rw [hv] at hvalid; cases hvalid
        | ok c =>
          rw [hv] at hvalid
          by_cases hty : c.token_type = "access"
          · exact ⟨s, c, rfl, hv, hty⟩
          · simp [hty] at hvalid
      · rw [if_neg hb] at hvalid
        cases hvalid
  · intro cfg basic_decode path h c hcall
    unfold auth_middleware_call at hcall
    by_cases hm : auth_mode_of cfg.mode = "disabled"
    · rw [if_pos hm] at hcall; cases hcall
    · rw [if_neg hm] at hcall
      by_cases hr : (route_auth_disabled cfg.disabled_routes path ||
          is_static_file_path path) = true
      · rw [if_pos hr] at hcall; cases hcall
      · rw [if_neg hr] at hcall
        cases h with
        | none => cases hcall
        | some s =>
          by_cases hb : strStartsWith s "Bearer " = true
          · have heq2 : (match (some s : Option String) with
                | some s =>
                  if strStartsWith s "Bearer " then
                    match validate_token decode bl (strDrop s 7) with
                    | .ok c => if c.token_type = "access" then AuthDecision.pass_bearer c
                               else AuthDecision.reject
                    | .error _ => AuthDecision.reject
                  else if strStartsWith s "Basic " then
                    match basic_decode (strDrop s 6) with
                    | some (u, p) =>
                      if u = cfg.admin_username ∧ p = cfg.admin_password then
                        AuthDecision.pass_basic
                      else AuthDecision.reject
                    | none => AuthDecision.reject
                  else AuthDecision.reject
                | none => AuthDecision.reject) =
                if strStartsWith s "Bearer " then
                  match validate_token decode bl (strDrop s 7) with
                  | .ok c => if c.token_type = "access" then AuthDecision.pass_bearer c
                             else AuthDecision.reject
                  | .error _ => AuthDecision.reject
                else if strStartsWith s "Basic " then
                  match basic_decode (strDrop s 6) with
                  | some (u, p) =>
                    if u = cfg.admin_username ∧ p = cfg.admin_password then
                      AuthDecision.pass_basic
                    else AuthDecision.reject
                  | none => AuthDecision.reject
                else AuthDecision.reject := rfl
            rw [heq2, if_pos hb] at hcall
            cases hv : validate_token decode bl (strDrop s 7) with
            | error e => rw [hv] at hcall; cases hcall
            | ok c' =>
              rw [hv] at hcall
              by_cases hty : c'.token_type = "access"
              · simp only [hty] at hcall
                simp at hcall
                subst hcall
                exact hty
              · simp [hty] at hcall
          · have heq2 : (match (some s : Option String) with
                | some s =>
                  if strStartsWith s "Bearer " then
                    match validate_token decode bl (strDrop s 7) with
                    | .ok c => if c.token_type = "access" then AuthDecision.pass_bearer c
                               else AuthDecision.reject
                    | .error _ => AuthDecision.reject
                  else if strStartsWith s "Basic " then
                    match basic_decode (strDrop s 6) with
                    | some (u, p) =>
                      if u = cfg.admin_username ∧ p = cfg.admin_password then
                        AuthDecision.pass_basic
                      else AuthDecision.reject
                    | none => AuthDecision.reject
                  else AuthDecision.reject
                | none => AuthDecision.reject) =
                if strStartsWith s "Bearer " then
                  match validate_token decode bl (strDrop s 7) with
                  | .ok c => if c.token_type = "access" then AuthDecision.pass_bearer c
                             else AuthDecision.reject
                  | .error _ => AuthDecision.reject
                else if strStartsWith s "Basic " then
                  match basic_decode (strDrop s 6) with
                  | some (u, p) =>
                    if u = cfg.admin_username ∧ p = cfg.admin_password then
                      AuthDecision.pass_basic
                    else AuthDecision.reject
                  | none => AuthDecision.reject
                else AuthDecision.reject := rfl
            rw [heq2, if_neg hb] at hcall
            by_cases hbas : strStartsWith s "Basic " = true
            · rw [if_pos hbas] at hcall
              cases hbd : basic_decode (strDrop s 6) with
              | none => rw [hbd] at hcall; cases hcall
              | some up =>
                rw [hbd] at hcall
                obtain ⟨u, p⟩ := up
                by_cases hup : u = cfg.admin_username ∧ p = cfg.admin_password <;>
                  simp [hup] at hcall
            · rw [if_neg hbas] at hcall
              cases hcall

theorem C10_access_tokens_only_witness :
    verify_token
      (fun s => if s = "rt" then
        some { sub := "admin", exp := 100, iat := 0, jti := "j2", token_type := "refresh" }
        else none)
      [] (some "Bearer rt") =
      { valid := false, username := none, expires_at := none } :=
  (C10_access_tokens_only
    (fun s => if s = "rt" then
      some { sub := "admin", exp := 100, iat := 0, jti := "j2", token_type := "refresh" }
      else none)
    []).1 "Bearer rt"
    { sub := "admin", exp := 100, iat := 0, jti := "j2", token_type := "refresh" }
    rfl rfl rfl rfl

/-! ### Rate-limit client identity (middleware/rate_limit.rs)

`IpAddr::from_str` parsing is external; it is abstracted as an oracle
`parseIp : String → Option IP` over an arbitrary address type `IP`, with the
`127.0.0.1` fallback as an explicit `loopback` value.  Headers that are
absent or not valid UTF-8 are `none`. -/

/-- Operation `RateLimitService::get_client_ip` (rate_limit.rs, lines 116-143):
first IP listed in X-Forwarded-For if it parses, else X-Real-IP if it
parses, else the host part of the transport peer address if it parses, else
loopback. -/
def get_client_ip {IP : Type} (parseIp : String → Option IP) (loopback : IP)
    (xff xrip peer : Option String) : IP :=
  match xff.bind (fun s => parseIp ((s.splitOn ",").headI.trim)) with
  | some ip => ip
  | none =>
    match xrip.bind (fun s => parseIp s) with
    | some ip => ip
    | none =>
      match peer.bind (fun a => parseIp ((a.splitOn ":").headI)) with
      | some ip => ip
      | none => loopback

/-- C8: the rate-limit key is derived in priority order — the first
comma-separated entry of X-Forwarded-For when it parses as an IP, else the
X-Real-IP value when it parses, else the host part of the transport peer
address, else the fixed loopback address. -/
theorem C8_client_ip_priority {IP : Type} (parseIp : String → Option IP) (loopback : IP)
    (xff xrip peer : Option String) :
    (∀ s ip, xff = some s → parseIp ((s.splitOn ",").headI.trim) = some ip →
      get_client_ip parseIp loopback xff xrip peer = ip) ∧
    (xff.bind (fun s => parseIp ((s.splitOn ",").headI.trim)) = none →
      ∀ s ip, xrip = some s → parseIp s = some ip →
        get_client_ip parseIp loopback xff xrip peer = ip) ∧
    (xff.bind (fun s => parseIp ((s.splitOn ",").headI.trim)) = none →
      xrip.bind (fun s => parseIp s) = none →
      ∀ a ip, peer = some a → parseIp ((a.splitOn ":").headI) = some ip →
        get_client_ip parseIp loopback xff xrip peer = ip) ∧
    (xff.bind (fun s => parseIp ((s.splitOn ",").headI.trim)) = none →
      xrip.bind (fun s => parseIp s) = none →
      peer.bind (fun a => parseIp ((a.splitOn ":").headI)) = none →
      get_client_ip parseIp loopback xff xrip peer = loopback) := by
  refine ⟨?_, ?_, ?_, ?_⟩
  · intro s ip hxff hp
    unfold get_client_ip
    rw [hxff]
    simp only [Option.some_bind]
    rw [hp]
  · intro hx s ip hxr hp
    unfold get_client_ip
    rw [hx, hxr]
    simp only [Option.some_bind]
    rw [hp]
  · intro hx hr a ip hpeer hp
    unfold get_client_ip
    rw [hx, hr, hpeer]
    simp only [Option.some_bind]
    rw [hp]
  · intro hx hr hp
    unfold get_client_ip
    rw [hx, hr, hp]

theorem C8_client_ip_priority_witness :
    get_client_ip (fun s => if s = "ip" then some "IP" else none) "127.0.0.1"
      none (some "ip") (some "peer") = "IP" :=
  (C8_client_ip_priority (fun s => if s = "ip" then some "IP" else none) "127.0.0.1"
    none (some "ip") (some "peer")).2.1 rfl "ip" "IP" rfl (by decide)

end SnapFile
